import Mathlib

/-!
# Verification of the incremental J-Quants archive updater (`update_jqdb.py`)

Shallow embedding of the updater's core: partition naming, the in-memory
file repository, the atomic writer, and the per-instrument update engine
(including fiscal-year rollover).  Machine strings are modelled as
`List Char` (`Str`), tables as lists of rows keyed by a numeric `YYYYMMDD`
date (the source stores dates as fixed-width `"YYYY-MM-DD"` strings whose
lexicographic order coincides with the numeric order of the corresponding
`YYYYMMDD` numeral), and the filesystem as an association list from path
to table contents.
-/

namespace JQ

/-- Machine strings, modelled as lists of characters. -/
abbrev Str := List Char

/-- Python `s.split(sep)` for a single-character separator: splits on every
occurrence, keeping empty fragments.  `splitOnChar sep s` is never empty. -/
def splitOnChar (sep : Char) : Str → List Str
  | [] => [[]]
  | c :: cs =>
    match splitOnChar sep cs with
    | [] => if c = sep then [[], []] else [[c]]
    | s :: rest => if c = sep then [] :: s :: rest else (c :: s) :: rest

/-- Python `s.endswith(suffix)`. -/
def strEndsWith (s suffix : Str) : Bool :=
  suffix.reverse.isPrefixOf s.reverse

/-- Python string comparison `a < b`: lexicographic by code point. -/
def strLt : Str → Str → Bool
  | [], [] => false
  | [], _ :: _ => true
  | _ :: _, [] => false
  | a :: as, b :: bs =>
    if a.toNat < b.toNat then true
    else if b.toNat < a.toNat then false
    else strLt as bs

/-- Python `a >= b` on strings. -/
def strGe (a b : Str) : Bool := ! strLt a b

/-- Python `a > b` on strings. -/
def strGt (a b : Str) : Bool := strLt b a

/-- The character for a decimal digit `k < 10` (`'0'` … `'9'`). -/
def digCh (k : Nat) : Char := Char.ofNat (48 + k)

/-- Numeric value of a decimal digit string, as Python `int` computes it on
an all-digit string (most significant digit first). -/
def digitsToNat (s : Str) : Nat :=
  s.foldl (fun acc c => acc * 10 + (c.toNat - 48)) 0

/-- Python `int(s)` restricted to the shapes that occur here: succeeds
exactly on nonempty all-digit strings (the source never feeds signs or
whitespace to `int`); anything else raises `ValueError`, i.e. `none`. -/
def parsePyInt (s : Str) : Option Nat :=
  if s ≠ [] ∧ s.all Char.isDigit then some (digitsToNat s) else none

/-- Python `str(n)` for a natural number: decimal digits, no padding.
The first argument is fuel (`n+1` suffices since `n / 10 < n` for `n ≥ 10`). -/
def natToStrAux : Nat → Nat → Str
  | 0, _ => []
  | fuel + 1, n =>
    if n < 10 then [digCh n] else natToStrAux fuel (n / 10) ++ [digCh (n % 10)]

/-- Python `str(n)` / f-string interpolation of a natural number. -/
def natToStr (n : Nat) : Str := natToStrAux (n + 1) n

/-- `strftime` zero-padded two-digit field (`"%m"`, `"%d"`). -/
def pad2 (n : Nat) : Str := [digCh (n / 10 % 10), digCh (n % 10)]

/-- `strftime` zero-padded four-digit field (`"%Y"`, years ≤ 9999). -/
def pad4 (n : Nat) : Str :=
  [digCh (n / 1000 % 10), digCh (n / 100 % 10), digCh (n / 10 % 10), digCh (n % 10)]

/-- `strftime("%Y%m%d")` of a (year, month, day) triple. -/
def ymdStr (y m d : Nat) : Str := pad4 y ++ pad2 m ++ pad2 d

/-! ## Dates and the fiscal year -/

/-- A calendar date, as carried by Python `datetime` objects. -/
structure Date where
  year : Nat
  month : Nat
  day : Nat
deriving DecidableEq, Repr

/-- Gregorian leap-year test (as `datetime` validates days). -/
def isLeap (y : Nat) : Bool := (y % 4 = 0 && y % 100 ≠ 0) || y % 400 = 0

/-- Number of days of month `m` of year `y`. -/
def daysInMonth (y m : Nat) : Nat :=
  if m = 2 then (if isLeap y then 29 else 28)
  else if m = 4 ∨ m = 6 ∨ m = 9 ∨ m = 11 then 30
  else 31

/-- The dates representable by Python `datetime` (year 1–9999, real
calendar day). -/
def validDate (d : Date) : Prop :=
  1 ≤ d.year ∧ d.year ≤ 9999 ∧ 1 ≤ d.month ∧ d.month ≤ 12 ∧
    1 ≤ d.day ∧ d.day ≤ daysInMonth d.year d.month

instance (d : Date) : Decidable (validDate d) := by
  unfold validDate; infer_instance

/-- `datetime + timedelta(days=1)`. -/
def nextDay (d : Date) : Date :=
  if d.day < daysInMonth d.year d.month then ⟨d.year, d.month, d.day + 1⟩
  else if d.month < 12 then ⟨d.year, d.month + 1, 1⟩
  else ⟨d.year + 1, 1, 1⟩

/-- The numeric `YYYYMMDD` value of a date. -/
def ymdNum (d : Date) : Nat := d.year * 10000 + d.month * 100 + d.day

/-- Decode a numeric `YYYYMMDD` value into a `Date` (as
`datetime.strptime(s, "%Y-%m-%d")` decodes the date strings stored in the
`Date` column). -/
def ymdToDate (n : Nat) : Date := ⟨n / 10000, n / 100 % 100, n % 100⟩

/-- `strftime("%Y%m%d")` of a `Date`. -/
def dateStr (d : Date) : Str := ymdStr d.year d.month d.day

/-- `datetime.strptime(s, "%Y%m%d")`: succeeds on 8-digit strings denoting
a real calendar date, raises `ValueError` (`none`) otherwise.  (CPython's
`%Y` field is flexible-width; every string the updater itself writes is a
canonical 8-digit date, and the malformed strings considered here fail in
both the model and CPython.) -/
def strptimeYmd (s : Str) : Option Date :=
  if s.length = 8 ∧ s.all Char.isDigit then
    let d : Date := ⟨digitsToNat (s.take 4), digitsToNat ((s.drop 4).take 2),
      digitsToNat (s.drop 6)⟩
    if validDate d then some d else none
  else none

/-- `get_current_fy` (update_jqdb.py:100–107): the Japanese fiscal year of a
date — the calendar year for April–December, the previous year for
January–March.  Python years are ≥ 1, so truncated subtraction on `Nat` is
exact. -/
def get_current_fy (d : Date) : Nat :=
  if d.month ≥ 4 then d.year else d.year - 1

/-! ## Tables (pandas `DataFrame`s with a `Date` column) -/

/-- One row of a daily-quotes table.  `date` is the numeric `YYYYMMDD` value
of the row's fixed-width `"YYYY-MM-DD"` `Date` string (string comparisons on
that canonical form coincide with numeric comparisons); `val` stands for the
remaining (OHLCV-style) columns, which the updater moves around opaquely. -/
structure Row where
  date : Nat
  val : Nat
deriving DecidableEq, Repr

/-- A `DataFrame`: an ordered sequence of rows. -/
abbrev Table := List Row

/-- Row comparison by date, the key of every `sort_values("Date")`. -/
def rowLe (a b : Row) : Prop := a.date ≤ b.date

instance : DecidableRel rowLe := fun a b => Nat.decLe a.date b.date

instance : IsTotal Row rowLe := ⟨fun a b => Nat.le_total a.date b.date⟩

instance : IsTrans Row rowLe := ⟨fun _ _ _ h h' => Nat.le_trans h h'⟩

/-- `df.sort_values("Date")`. -/
def sortRows (t : Table) : Table := t.insertionSort rowLe

/-- `df.drop_duplicates(subset=["Date"], keep="last")`: a row survives iff no
later row carries the same date; the relative order of survivors is kept. -/
def drop_duplicates_keep_last : Table → Table
  | [] => []
  | r :: rest =>
    if rest.any (fun s => s.date == r.date) then drop_duplicates_keep_last rest
    else r :: drop_duplicates_keep_last rest

/-- The merge discipline used by both update branches (update_jqdb.py:352–357
and 399–406): concatenate, de-duplicate by date keeping the newest, sort by
date.  (The `pd.to_datetime(...).dt.strftime("%Y-%m-%d")` normalisation is the
identity on the canonical date strings this archive stores.) -/
def merge_tables (old new : Table) : Table :=
  sortRows (drop_duplicates_keep_last (old ++ new))

/-- `df["Date"].max()` as a numeric `YYYYMMDD` value (0 for an empty table;
the source guards every use by a non-emptiness check). -/
def maxDate (t : Table) : Nat := t.foldl (fun a r => max a r.date) 0

/-! ## The filesystem -/

/-- The filesystem visible to the updater: an association list from path to
the table stored at that path (first binding wins). -/
abbrev FS := List (Str × Table)

/-- Contents at a path (`pd.read_csv` source). -/
def fsGet (fs : FS) (p : Str) : Option Table :=
  (fs.find? (fun e => e.1 == p)).map Prod.snd

/-- `os.remove` / the removal half of `os.replace` (no-op if absent). -/
def fsRemove (fs : FS) (p : Str) : FS :=
  fs.filter (fun e => !(e.1 == p))

/-- Creating/overwriting the file at `p` with contents `t`. -/
def fsInsert (fs : FS) (p : Str) (t : Table) : FS :=
  (p, t) :: fsRemove fs p

/-- `".tmp"`. -/
def tmpSuffix : Str := '.' :: 't' :: 'm' :: 'p' :: []

/-- `".csv"`. -/
def csvSuffix : Str := '.' :: 'c' :: 's' :: 'v' :: []

/-- `os.path.join` (separator written `/`; the platform separator plays no
role beyond being a single non-`_` character). -/
def joinPath (dir name : Str) : Str := dir ++ '/' :: name

/-- `os.path.basename`. -/
def basename (p : Str) : Str := (splitOnChar '/' p).getLastD []

/-- `atomic_save` (update_jqdb.py:187–213).  `wOk` injects success/failure of
the `df.to_csv(temp_path)` write (`junk` being whatever partial content the
interrupted write left in the temporary file), `rOk` of the
`os.replace`/`os.rename` step.  On failure the cleanup handler removes the
temporary file and the exception is re-raised (`.error` carries the
filesystem as the exception propagates). -/
def atomic_save (fs : FS) (df : Table) (filepath : Str)
    (wOk rOk : Bool) (junk : Table) : Except FS FS :=
  let temp_path := filepath ++ tmpSuffix
  if !wOk then
    .error (fsRemove (fsInsert fs temp_path junk) temp_path)
  else
    let fs1 := fsInsert fs temp_path df
    if !rOk then
      .error (fsRemove fs1 temp_path)
    else
      .ok (fsInsert (fsRemove fs1 temp_path) filepath df)

/-! ## The file repository -/

/-- `FileRepository._scan_files` (update_jqdb.py:121–135) applied to the
`(root, filename)` pairs produced by `os.walk`: keep files ending in `.csv`
whose name splits into at least two `_`-separated parts, indexing the full
path under the first part (the instrument code). -/
def scan_files (walked : List (Str × Str)) : List (Str × Str) :=
  walked.foldr
    (fun e acc =>
      if strEndsWith e.2 csvSuffix ∧ 2 ≤ (splitOnChar '_' e.2).length then
        ((splitOnChar '_' e.2).headD [], joinPath e.1 e.2) :: acc
      else acc)
    []

/-- The suffix (`parts[-1].split(".")[0]`) examined by the `sort_key` closure
of `FileRepository.get_latest_file` (update_jqdb.py:158–160). -/
def sort_key_part (filepath : Str) : Str :=
  let filename := basename filepath
  let parts := splitOnChar '_' filename
  (splitOnChar '.' (parts.getLastD [])).headD []

/-- The `sort_key` closure of `FileRepository.get_latest_file`
(update_jqdb.py:157–163): the numeric value of an 8-digit all-digit date
suffix, priority 0 otherwise.  (Python's `"".isdigit()` is `False`, subsumed
here by the length check.) -/
def sort_key (filepath : Str) : Nat :=
  let last_part := sort_key_part filepath
  if last_part.all Char.isDigit ∧ last_part.length = 8 then digitsToNat last_part
  else 0

/-- The head of `sorted(files, key=sort_key, reverse=True)`: Python's sort is
stable, so index 0 of the descending sort is the first element attaining the
maximal `sort_key`, which this fold computes. -/
def latest_fold (best : Str) (rest : List Str) : Str :=
  rest.foldl (fun b g => if sort_key b < sort_key g then g else b) best

/-- `FileRepository.get_latest_file` (update_jqdb.py:143–167) on one code's
file list: `None` when the list is empty, otherwise the head of the stable
descending sort by `sort_key`. -/
def get_latest_file (files : List Str) : Option Str :=
  match files with
  | [] => none
  | f :: rest => some (latest_fold f rest)

/-- `FileRepository.add_file` (update_jqdb.py:169–176). -/
def add_file (files : List Str) (filepath : Str) : List Str :=
  if filepath ∈ files then files else files ++ [filepath]

/-- `FileRepository.remove_file` (update_jqdb.py:178–184): removes the first
occurrence if present. -/
def remove_file (files : List Str) (filepath : Str) : List Str :=
  files.erase filepath

/-! ## The update engine -/

/-- Python `s.replace("fy", "")`: delete every (left-to-right,
non-overlapping) occurrence of `"fy"`. -/
def replaceFy : Str → Str
  | [] => []
  | [c] => [c]
  | c :: d :: rest =>
    if c = 'f' ∧ d = 'y' then replaceFy rest else c :: replaceFy (d :: rest)

/-- The archived (dateless) partition name
`f"{code}_{current_file_fy}fy.csv"` (update_jqdb.py:362). -/
def mkArchiveName (code : Str) (fy : Nat) : Str :=
  code ++ '_' :: (natToStr fy ++ ('f' :: 'y' :: csvSuffix))

/-- The live (dated) partition name `f"{code}_{fy}fy_{latest_date_plain}.csv"`
(update_jqdb.py:390 and 410), where `latest_date_plain` is the fetched data's
maximal `"YYYY-MM-DD"` date string with the dashes removed — i.e. the 8-digit
rendering of the numeric date `date8`. -/
def mkLiveName (code : Str) (fy date8 : Nat) : Str :=
  code ++ '_' :: (natToStr fy ++ ('f' :: 'y' :: '_' ::
    (dateStr (ymdToDate date8) ++ csvSuffix)))

/-- Lines 240–265 of `update_file_for_code`: derive `last_updated_date_str`
from the latest partition.  A filename with at least three `_`-parts carries
its date as the suffix before the extension; otherwise (archived, dateless
file) the file itself is read and the maximal `Date` entry used, any read
failure or empty table yielding `None`. -/
def compute_last_updated (fs : FS) (current_file_path : Str) : Option Str :=
  let filename := basename current_file_path
  let parts := splitOnChar '_' filename
  if 3 ≤ parts.length then
    some (sort_key_part current_file_path)
  else
    match fsGet fs current_file_path with
    | some df => if df ≠ [] then some (dateStr (ymdToDate (maxDate df))) else none
    | none => none

/-- The outcome codes returned by `update_file_for_code`. -/
inductive Outcome
  | DIR_NOT_FOUND
  | FILE_NOT_FOUND
  | FILENAME_FORMAT_ERROR
  | ALREADY_LATEST
  | DATE_CALC_ERROR
  | UPDATED
  | NO_NEW_DATA
  | ERROR
deriving DecidableEq, Repr

/-- The mutable state a per-instrument update touches: the filesystem and the
repository's file list for this instrument code. -/
structure St where
  fs : FS
  repo : List Str
deriving DecidableEq, Repr

/-- Result of one per-instrument update: an outcome code returned to the run
coordinator, or an exception escaping the function (`exn`). -/
inductive UpdRes
  | ok (oc : Outcome) (st : St)
  | exn (st : St)
deriving DecidableEq, Repr

/-- Line 323: `df_new.iloc[-1]["Date"]` after the sort at line 317 — the
last, i.e. maximal, fetched date. -/
def fetch_latest_date (df_new0 : Table) : Nat :=
  ((sortRows df_new0).getLastD ⟨0, 0⟩).date

/-- Lines 323–325: the fiscal year of the last (maximal) fetched date. -/
def fetch_new_fy (df_new0 : Table) : Nat :=
  get_current_fy (ymdToDate (fetch_latest_date df_new0))

/-- Lines 329–335: the fiscal year encoded in the current partition's
filename — `int(filename.split("_")[1].replace("fy", ""))` — with the
supplied fallback on `ValueError`. -/
def current_fy_of (current_file_path : Str) (fallback : Nat) : Nat :=
  (parsePyInt (replaceFy
    ((splitOnChar '_' (basename current_file_path)).getD 1 []))).getD fallback

/-- Lines 311–426 of `update_file_for_code`: everything after a non-empty
fetch, inside the `try` block — sorting the fetched rows, loading the current
partition, fiscal-year classification, and the rollover/normal write paths.
`.error` is a raised exception (caught by the caller), carrying the state at
the raise.  Date-string comparisons against `new_fy_start_date` are
lexicographic on fixed-width `"YYYY-MM-DD"` strings, hence numeric here; the
`pd.to_datetime(...).dt.strftime` round-trip at lines 383–385 and 402–404 is
the identity on those canonical strings. -/
def process_fetched (st : St) (code sector_dir current_file_path : Str)
    (df_new0 : Table) (wOk rOk : Str → Bool) (junk : Str → Table) : Except St St :=
  let df_new := sortRows df_new0
  match fsGet st.fs current_file_path with
  | none => .error st
  | some df_old =>
    let latest_data_date := fetch_latest_date df_new0
    let new_fy := fetch_new_fy df_new0
    let parts := splitOnChar '_' (basename current_file_path)
    if parts.length < 2 then .error st
    else
      let current_file_fy := current_fy_of current_file_path new_fy
      if current_file_fy < new_fy then
        let new_fy_start := new_fy * 10000 + 401
        let df_curr := df_new.filter (fun r => r.date < new_fy_start)
        let df_next := df_new.filter (fun r => new_fy_start ≤ r.date)
        let df_old_updated := if df_curr = [] then df_old else merge_tables df_old df_curr
        let archive_path := joinPath sector_dir (mkArchiveName code current_file_fy)
        match atomic_save st.fs df_old_updated archive_path
            (wOk archive_path) (rOk archive_path) (junk archive_path) with
        | .error fs' => .error ⟨fs', st.repo⟩
        | .ok fs1 =>
          let st2 : St :=
            if current_file_path ≠ archive_path then
              ⟨fsRemove fs1 current_file_path, remove_file st.repo current_file_path⟩
            else ⟨fs1, st.repo⟩
          let st3 : St := ⟨st2.fs, add_file st2.repo archive_path⟩
          if df_next ≠ [] then
            let live_path := joinPath sector_dir (mkLiveName code new_fy latest_data_date)
            match atomic_save st3.fs df_next live_path
                (wOk live_path) (rOk live_path) (junk live_path) with
            | .error fs' => .error ⟨fs', st3.repo⟩
            | .ok fs2 => .ok ⟨fs2, add_file st3.repo live_path⟩
          else .ok st3
      else
        let df_combined := merge_tables df_old df_new
        let new_file_path := joinPath sector_dir (mkLiveName code current_file_fy latest_data_date)
        match atomic_save st.fs df_combined new_file_path
            (wOk new_file_path) (rOk new_file_path) (junk new_file_path) with
        | .error fs' => .error ⟨fs', st.repo⟩
        | .ok fs1 =>
          let st2 : St :=
            if new_file_path ≠ current_file_path then
              ⟨fsRemove fs1 current_file_path, remove_file st.repo current_file_path⟩
            else ⟨fs1, st.repo⟩
          .ok ⟨st2.fs, add_file st2.repo new_file_path⟩

/-- `update_file_for_code` (update_jqdb.py:216–434).  `dirExists` models the
`os.path.exists(sector_dir)` probe, `fetch` the result of
`jq_api.get_daily_quotes` (an exception, or a table — `None`/empty both being
the empty table), `wOk`/`rOk`/`junk` the per-path success of the atomic
writer's two steps.  Note that the `datetime.strptime` call at line 278 sits
*outside* every `try` block: a malformed date suffix that survives the
string-order freshness check raises an uncaught `ValueError` (`UpdRes.exn`). -/
def update_file_for_code (dirExists : Bool) (st : St)
    (code sector_dir latest_biz_date : Str) (test_mode : Bool)
    (fetch : Except Unit Table) (wOk rOk : Str → Bool) (junk : Str → Table) : UpdRes :=
  if !dirExists then .ok .DIR_NOT_FOUND st
  else
    match get_latest_file st.repo with
    | none => .ok .FILE_NOT_FOUND st
    | some current_file_path =>
      match compute_last_updated st.fs current_file_path with
      | none => .ok .FILE_NOT_FOUND st
      | some last_updated_date_str =>
        if strGe last_updated_date_str latest_biz_date then .ok .ALREADY_LATEST st
        else
          match strptimeYmd last_updated_date_str with
          | none => .exn st
          | some last_dt =>
            let from_date_str := dateStr (nextDay last_dt)
            if strGt from_date_str latest_biz_date then .ok .DATE_CALC_ERROR st
            else if test_mode then .ok .UPDATED st
            else
              match fetch with
              | .error _ => .ok .ERROR st
              | .ok df_new =>
                if df_new = [] then .ok .NO_NEW_DATA st
                else
                  match process_fetched st code sector_dir current_file_path df_new wOk rOk junk with
                  | .ok st' => .ok .UPDATED st'
                  | .error st' => .ok .ERROR st'

/-! ## Basic filesystem lemmas -/

lemma fsGet_cons (e : Str × Table) (fs : FS) (q : Str) :
    fsGet (e :: fs) q = if e.1 = q then some e.2 else fsGet fs q := by
  by_cases h : e.1 = q
  · rw [if_pos h]
    show (List.find? _ (e :: fs)).map Prod.snd = _
    rw [List.find?_cons_of_pos _ (by simp [h])]
    rfl
  · rw [if_neg h]
    show (List.find? _ (e :: fs)).map Prod.snd = _
    rw [List.find?_cons_of_neg _ (by simp [h])]
    rfl

lemma fsGet_fsRemove (fs : FS) (p q : Str) :
    fsGet (fsRemove fs p) q = if q = p then none else fsGet fs q := by
  induction fs with
  | nil => simp [fsGet, fsRemove]
  | cons e rest ih =>
    show fsGet (List.filter _ (e :: rest)) q = _
    rw [List.filter_cons]
    by_cases hep : e.1 = p
    · rw [if_neg (by simp [hep])]
      show fsGet (fsRemove rest p) q = _
      rw [ih, fsGet_cons]
      by_cases hqp : q = p
      · simp [hqp]
      · rw [if_neg hqp, if_neg hqp, if_neg (fun h : e.1 = q => hqp (h.symm.trans hep))]
    · rw [if_pos (by simp [hep])]
      show fsGet (e :: fsRemove rest p) q = _
      rw [fsGet_cons, fsGet_cons, ih]
      by_cases heq : e.1 = q
      · have hqp : ¬ q = p := fun h => hep (heq.trans h)
        simp [heq, hqp]
      · rw [if_neg heq, if_neg heq]

lemma fsGet_fsInsert (fs : FS) (p q : Str) (t : Table) :
    fsGet (fsInsert fs p t) q = if q = p then some t else fsGet fs q := by
  show fsGet ((p, t) :: fsRemove fs p) q = _
  rw [fsGet_cons, fsGet_fsRemove]
  by_cases hqp : q = p
  · simp [hqp]
  · rw [if_neg (fun h : p = q => hqp h.symm), if_neg hqp, if_neg hqp]

lemma append_ne_self_append_tmp (p : Str) : p ≠ p ++ tmpSuffix := by
  intro h
  have := congrArg List.length h
  simp [tmpSuffix] at this

/-- C3: if either step of `atomic_save` fails, the temporary file
`path + ".tmp"` has been deleted by the time the exception propagates, and
the target path still holds exactly what it held before the call. -/
theorem atomic_save_failure_cleanup (fs : FS) (df : Table) (filepath : Str)
    (wOk rOk : Bool) (junk : Table) (hfail : wOk = false ∨ rOk = false) :
    ∃ fs', atomic_save fs df filepath wOk rOk junk = .error fs' ∧
      fsGet fs' (filepath ++ tmpSuffix) = none ∧
      fsGet fs' filepath = fsGet fs filepath := by
  have hne := append_ne_self_append_tmp filepath
  cases wOk with
  | false =>
    refine ⟨_, rfl, ?_, ?_⟩
    · rw [fsGet_fsRemove, if_pos rfl]
    · rw [fsGet_fsRemove, if_neg (fun h => hne h), fsGet_fsInsert,
        if_neg (fun h => hne h)]
  | true =>
    rcases hfail with h | h
    · exact absurd h (by simp)
    · subst h
      refine ⟨_, rfl, ?_, ?_⟩
      · rw [fsGet_fsRemove, if_pos rfl]
      · rw [fsGet_fsRemove, if_neg (fun h => hne h), fsGet_fsInsert,
          if_neg (fun h => hne h)]

/-- Witness for C3 at a concrete failing save. -/
theorem atomic_save_failure_cleanup_witness :
    ∃ fs', atomic_save [] [⟨20250101, 7⟩] ['a'] false true [] = .error fs' ∧
      fsGet fs' (['a'] ++ tmpSuffix) = none ∧
      fsGet fs' ['a'] = fsGet [] ['a'] :=
  atomic_save_failure_cleanup [] [⟨20250101, 7⟩] ['a'] false true [] (Or.inl rfl)

/-! ## The fiscal year -/

/-- Chronological order on dates. -/
def dateLe (a b : Date) : Prop :=
  a.year < b.year ∨
    (a.year = b.year ∧
      (a.month < b.month ∨ (a.month = b.month ∧ a.day ≤ b.day)))

instance (a b : Date) : Decidable (dateLe a b) := by
  unfold dateLe; infer_instance

lemma daysInMonth_le_31 (y m : Nat) : daysInMonth y m ≤ 31 := by
  unfold daysInMonth
  split
  · split <;> omega
  · split <;> omega

/-- C8: for every representable date, `get_current_fy d = y` exactly when `d`
lies between April 1 of calendar year `y` and March 31 of calendar year
`y + 1`: the fiscal year runs April 1 – March 31, and equals the calendar
year for months ≥ 4 and the calendar year minus one for January–March. -/
theorem get_current_fy_iff (d : Date) (y : Nat) (hv : validDate d) :
    get_current_fy d = y ↔
      (dateLe ⟨y, 4, 1⟩ d ∧ dateLe d ⟨y + 1, 3, 31⟩) := by
  obtain ⟨hy1, _, hm1, hm2, hd1, hd2⟩ := hv
  have hd31 : d.day ≤ 31 := hd2.trans (daysInMonth_le_31 _ _)
  unfold get_current_fy dateLe
  by_cases hm : d.month ≥ 4
  · rw [if_pos hm]; simp only []; omega
  · rw [if_neg hm]; simp only []; omega

/-- Witness for C8: October 12, 2025 lies in fiscal year 2025. -/
theorem get_current_fy_iff_witness : get_current_fy ⟨2025, 10, 12⟩ = 2025 :=
  (get_current_fy_iff ⟨2025, 10, 12⟩ 2025 (by decide)).mpr (by decide)

/-! ## The repository scan -/

lemma strEndsWith_iff (s suf : Str) : strEndsWith s suf = true ↔ suf <:+ s := by
  unfold strEndsWith
  rw [List.isPrefixOf_iff_prefix, List.reverse_prefix]

lemma strEndsWith_join (root name suf : Str)
    (h : strEndsWith name suf = true) :
    strEndsWith (joinPath root name) suf = true := by
  rw [strEndsWith_iff] at h ⊢
  refine h.trans ?_
  rw [joinPath, show root ++ '/' :: name = (root ++ ['/']) ++ name by simp]
  exact List.suffix_append _ _

lemma csv_not_tmp (s : Str) (h : strEndsWith s csvSuffix = true) :
    strEndsWith s tmpSuffix = false := by
  cases hb : strEndsWith s tmpSuffix with
  | false => rfl
  | true =>
    exfalso
    rw [strEndsWith_iff] at h hb
    have h' := (List.reverse_prefix.mpr h :)
    have hb' := (List.reverse_prefix.mpr hb :)
    have := (List.prefix_of_prefix_length_le h' hb' (by decide)).eq_of_length
      (by decide)
    exact absurd (congrArg List.reverse this) (by decide)

/-- C9: every path the repository scan places in its index ends in `.csv`,
and in particular never in `.tmp` — an interrupted `atomic_save`'s leftover
temporary file is invisible to the scan. -/
theorem scan_files_only_csv (walked : List (Str × Str)) (cp : Str × Str)
    (hmem : cp ∈ scan_files walked) :
    strEndsWith cp.2 csvSuffix = true ∧ strEndsWith cp.2 tmpSuffix = false := by
  induction walked with
  | nil => simp [scan_files] at hmem
  | cons e rest ih =>
    have hstep : scan_files (e :: rest) =
        if strEndsWith e.2 csvSuffix ∧ 2 ≤ (splitOnChar '_' e.2).length then
          ((splitOnChar '_' e.2).headD [], joinPath e.1 e.2) :: scan_files rest
        else scan_files rest := rfl
    rw [hstep] at hmem
    by_cases hc : strEndsWith e.2 csvSuffix ∧ 2 ≤ (splitOnChar '_' e.2).length
    · rw [if_pos hc] at hmem
      rcases List.mem_cons.mp hmem with h | h
      · subst h
        have hcsv := strEndsWith_join e.1 e.2 csvSuffix hc.1
        exact ⟨hcsv, csv_not_tmp _ hcsv⟩
      · exact ih h
    · rw [if_neg hc] at hmem
      exact ih hmem

/-- Witness for C9 on a one-file walk. -/
theorem scan_files_only_csv_witness :
    strEndsWith (joinPath ['d'] ['a', '_', 'b', '.', 'c', 's', 'v']) csvSuffix = true ∧
      strEndsWith (joinPath ['d'] ['a', '_', 'b', '.', 'c', 's', 'v']) tmpSuffix = false :=
  scan_files_only_csv [(['d'], ['a', '_', 'b', '.', 'c', 's', 'v'])]
    (['a'], joinPath ['d'] ['a', '_', 'b', '.', 'c', 's', 'v']) (by decide)

/-! ## Latest-partition selection -/

lemma latest_fold_spec (rest : List Str) : ∀ best : Str,
    (latest_fold best rest = best ∨ latest_fold best rest ∈ rest) ∧
    sort_key best ≤ sort_key (latest_fold best rest) ∧
    ∀ g ∈ rest, sort_key g ≤ sort_key (latest_fold best rest) := by
  induction rest with
  | nil => intro best; simp [latest_fold]
  | cons g rest ih =>
    intro best
    have hstep : latest_fold best (g :: rest) =
        latest_fold (if sort_key best < sort_key g then g else best) rest := rfl
    rw [hstep]
    by_cases h : sort_key best < sort_key g
    · rw [if_pos h]
      obtain ⟨hmem, hle, hall⟩ := ih g
      refine ⟨?_, Nat.le_of_lt (Nat.lt_of_lt_of_le h hle), ?_⟩
      · rcases hmem with h1 | h1
        · exact Or.inr (by rw [h1]; exact List.mem_cons_self g rest)
        · exact Or.inr (List.mem_cons_of_mem _ h1)
      · intro x hx
        rcases List.mem_cons.mp hx with h1 | h1
        · rw [h1]; exact hle
        · exact hall x h1
    · rw [if_neg h]
      obtain ⟨hmem, hle, hall⟩ := ih best
      refine ⟨?_, hle, ?_⟩
      · rcases hmem with h1 | h1
        · exact Or.inl h1
        · exact Or.inr (List.mem_cons_of_mem _ h1)
      · intro x hx
        rcases List.mem_cons.mp hx with h1 | h1
        · exact h1 ▸ Nat.le_trans (Nat.le_of_not_lt h) hle
        · exact hall x h1

/-- The archived/live pair of the spec's acceptance example. -/
def archExample : Str := "72030_2024fy.csv".toList

/-- The dated live file of the spec's acceptance example. -/
def liveExample : Str := "72030_2024fy_20250115.csv".toList

/-- C5: `get_latest_file` returns, without ever raising, an element of its
input maximising `sort_key`; a file whose suffix is not an 8-digit number
gets priority 0, hence ranks strictly below any file with a genuinely dated
(nonzero) 8-digit suffix; it returns `some` exactly on non-empty inputs; and
on the spec's archived/live example it picks the live file in either order. -/
theorem get_latest_file_spec :
    (∀ files f, get_latest_file files = some f →
        f ∈ files ∧ ∀ g ∈ files, sort_key g ≤ sort_key f) ∧
    (∀ files, (get_latest_file files).isSome = true ↔ files ≠ []) ∧
    (∀ p, ¬ ((sort_key_part p).all Char.isDigit = true ∧
        (sort_key_part p).length = 8) → sort_key p = 0) ∧
    (∀ p q, ¬ ((sort_key_part p).all Char.isDigit = true ∧
          (sort_key_part p).length = 8) →
        ((sort_key_part q).all Char.isDigit = true ∧
          (sort_key_part q).length = 8) →
        digitsToNat (sort_key_part q) ≠ 0 → sort_key p < sort_key q) ∧
    get_latest_file [archExample, liveExample] = some liveExample ∧
    get_latest_file [liveExample, archExample] = some liveExample := by
  refine ⟨?_, ?_, ?_, ?_, by decide, by decide⟩
  · intro files f hf
    match files with
    | [] => exact absurd hf (by simp [get_latest_file])
    | b :: rest =>
      have hsome : latest_fold b rest = f := by
        simpa [get_latest_file] using hf
      obtain ⟨hmem, hle, hall⟩ := latest_fold_spec rest b
      rw [hsome] at hmem hle hall
      refine ⟨?_, ?_⟩
      · rcases hmem with h1 | h1
        · exact h1 ▸ List.mem_cons_self b rest
        · exact List.mem_cons_of_mem _ h1
      · intro g hg
        rcases List.mem_cons.mp hg with h1 | h1
        · exact h1 ▸ hle
        · exact hall g h1
  · intro files
    match files with
    | [] => simp [get_latest_file]
    | b :: rest => simp [get_latest_file]
  · intro p hp
    unfold sort_key
    rw [if_neg hp]
  · intro p q hp hq hq0
    unfold sort_key
    rw [if_neg hp, if_pos hq]
    omega

/-- Witness for C5 on the spec's example repository. -/
theorem get_latest_file_spec_witness :
    liveExample ∈ [archExample, liveExample] ∧
      ∀ g ∈ [archExample, liveExample], sort_key g ≤ sort_key liveExample :=
  get_latest_file_spec.1 [archExample, liveExample] liveExample (by decide)

/-! ## De-duplication and merge lemmas -/

lemma ddkl_cons (r : Row) (rest : Table) :
    drop_duplicates_keep_last (r :: rest) =
      if rest.any (fun s => s.date == r.date) = true then
        drop_duplicates_keep_last rest
      else r :: drop_duplicates_keep_last rest := rfl

lemma ddkl_sublist : ∀ l : Table, List.Sublist (drop_duplicates_keep_last l) l := by
  intro l
  induction l with
  | nil => simp [drop_duplicates_keep_last]
  | cons r rest ih =>
    rw [ddkl_cons]
    by_cases h : rest.any (fun s => s.date == r.date) = true
    · rw [if_pos h]; exact ih.cons r
    · rw [if_neg h]; exact ih.cons₂ r

lemma ddkl_nodup : ∀ l : Table, ((drop_duplicates_keep_last l).map Row.date).Nodup := by
  intro l
  induction l with
  | nil => simp [drop_duplicates_keep_last]
  | cons r rest ih =>
    rw [ddkl_cons]
    by_cases h : rest.any (fun s => s.date == r.date) = true
    · rw [if_pos h]; exact ih
    · rw [if_neg h, List.map_cons, List.nodup_cons]
      refine ⟨?_, ih⟩
      intro hmem
      obtain ⟨s, hs, hsd⟩ := List.mem_map.mp hmem
      have hsub := (ddkl_sublist rest).subset hs
      exact h (List.any_eq_true.mpr ⟨s, hsub, by simpa using hsd⟩)

lemma ddkl_mem_of_split (l1 l2 : Table) (r : Row)
    (h : ∀ s ∈ l2, s.date ≠ r.date) :
    r ∈ drop_duplicates_keep_last (l1 ++ r :: l2) := by
  induction l1 with
  | nil =>
    rw [List.nil_append, ddkl_cons, if_neg (by
      intro hc
      obtain ⟨s, hs, hsd⟩ := List.any_eq_true.mp hc
      exact h s hs (by simpa using hsd))]
    exact List.mem_cons_self _ _
  | cons a l1' ih =>
    rw [List.cons_append, ddkl_cons]
    by_cases hc : (l1' ++ r :: l2).any (fun s => s.date == a.date) = true
    · rw [if_pos hc]; exact ih
    · rw [if_neg hc]; exact List.mem_cons_of_mem _ ih

lemma ddkl_mem_cases (old new : Table) (r : Row)
    (h : r ∈ drop_duplicates_keep_last (old ++ new)) :
    r ∈ new ∨ (r ∈ old ∧ ∀ s ∈ new, s.date ≠ r.date) := by
  induction old with
  | nil =>
    rw [List.nil_append] at h
    exact Or.inl ((ddkl_sublist new).subset h)
  | cons a old' ih =>
    rw [List.cons_append, ddkl_cons] at h
    by_cases hc : (old' ++ new).any (fun s => s.date == a.date) = true
    · rw [if_pos hc] at h
      rcases ih h with h1 | ⟨h1, h2⟩
      · exact Or.inl h1
      · exact Or.inr ⟨List.mem_cons_of_mem _ h1, h2⟩
    · rw [if_neg hc] at h
      rcases List.mem_cons.mp h with h1 | h1
      · subst h1
        refine Or.inr ⟨List.mem_cons_self _ _, ?_⟩
        intro s hs hsd
        exact hc (List.any_eq_true.mpr
          ⟨s, List.mem_append.mpr (Or.inr hs), by simpa using hsd⟩)
      · rcases ih h1 with h2 | ⟨h2, h3⟩
        · exact Or.inl h2
        · exact Or.inr ⟨List.mem_cons_of_mem _ h2, h3⟩

lemma ddkl_date_mem (l : Table) (dte : Nat) :
    dte ∈ (drop_duplicates_keep_last l).map Row.date ↔ dte ∈ l.map Row.date := by
  induction l with
  | nil => simp [drop_duplicates_keep_last]
  | cons r rest ih =>
    rw [ddkl_cons]
    by_cases hc : rest.any (fun s => s.date == r.date) = true
    · rw [if_pos hc]
      rw [List.map_cons]
      constructor
      · intro h; exact List.mem_cons_of_mem _ (ih.mp h)
      · intro h
        rcases List.mem_cons.mp h with h1 | h1
        · obtain ⟨s, hs, hsd⟩ := List.any_eq_true.mp hc
          refine ih.mpr (List.mem_map.mpr ⟨s, hs, ?_⟩)
          rw [show s.date = r.date by simpa using hsd, h1]
        · exact ih.mpr h1
    · rw [if_neg hc, List.map_cons, List.map_cons]
      simp only [List.mem_cons, ih]

lemma ddkl_of_nodup (l : Table) (h : (l.map Row.date).Nodup) :
    drop_duplicates_keep_last l = l := by
  induction l with
  | nil => rfl
  | cons r rest ih =>
    rw [List.map_cons, List.nodup_cons] at h
    rw [ddkl_cons, if_neg (by
      intro hc
      obtain ⟨s, hs, hsd⟩ := List.any_eq_true.mp hc
      exact h.1 (List.mem_map.mpr ⟨s, hs, by simpa using hsd⟩)), ih h.2]

lemma getLastD_mem_or (l : Table) (z : Row) :
    l.getLastD z = z ∨ l.getLastD z ∈ l := by
  induction l generalizing z with
  | nil => exact Or.inl rfl
  | cons a as ih =>
    rw [List.getLastD_cons]
    rcases ih a with h | h
    · exact Or.inr (by rw [h]; exact List.mem_cons_self _ _)
    · exact Or.inr (List.mem_cons_of_mem _ h)

lemma sorted_le_getLastD (l : Table) (hs : List.Sorted rowLe l) (r : Row)
    (hr : r ∈ l) (z : Row) : r.date ≤ (l.getLastD z).date := by
  induction l generalizing z with
  | nil => cases hr
  | cons a as ih =>
    rw [List.getLastD_cons]
    rw [List.sorted_cons] at hs
    rcases List.mem_cons.mp hr with h | h
    · subst h
      rcases getLastD_mem_or as r with h2 | h2
      · rw [h2]
      · exact hs.1 _ h2
    · exact ih hs.2 h a

/-- Perm between the sorted fetched rows and the original fetched rows. -/
lemma sortRows_perm (t : Table) : (sortRows t).Perm t :=
  List.perm_insertionSort rowLe t

lemma mem_sortRows (t : Table) (r : Row) : r ∈ sortRows t ↔ r ∈ t :=
  List.mem_insertionSort rowLe

/-- The properties C2 asserts about the merged table
`merge_tables old (sortRows new0)` (the table the non-rollover branch
writes): unique, input-preserving dates; new rows win; ascending order. -/
lemma merge_props (old new0 : Table) (hn : (new0.map Row.date).Nodup) :
    ((merge_tables old (sortRows new0)).map Row.date).Nodup ∧
    List.Sorted rowLe (merge_tables old (sortRows new0)) ∧
    (∀ r ∈ new0, r ∈ merge_tables old (sortRows new0)) ∧
    (∀ r ∈ merge_tables old (sortRows new0),
      r ∈ new0 ∨ (r ∈ old ∧ ∀ s ∈ new0, s.date ≠ r.date)) ∧
    (∀ dte, dte ∈ (merge_tables old (sortRows new0)).map Row.date ↔
      dte ∈ (old ++ new0).map Row.date) := by
  have hpermS : (sortRows new0).Perm new0 := sortRows_perm new0
  have hnodupS : ((sortRows new0).map Row.date).Nodup :=
    ((hpermS.map Row.date).nodup_iff).mpr hn
  have hpermM : (merge_tables old (sortRows new0)).Perm
      (drop_duplicates_keep_last (old ++ sortRows new0)) :=
    sortRows_perm _
  refine ⟨?_, List.sorted_insertionSort rowLe _, ?_, ?_, ?_⟩
  · exact ((hpermM.map Row.date).nodup_iff).mpr (ddkl_nodup _)
  · intro r hr
    have hrS : r ∈ sortRows new0 := (mem_sortRows new0 r).mpr hr
    obtain ⟨l1, l2, hsplit⟩ := List.append_of_mem hrS
    have hnd2 : ¬ r.date ∈ l2.map Row.date := by
      rw [hsplit, List.map_append, List.map_cons] at hnodupS
      exact (List.nodup_cons.mp (List.nodup_append.mp hnodupS).2.1).1
    have hl2 : ∀ s ∈ l2, s.date ≠ r.date := by
      intro s hs hsd
      exact hnd2 (List.mem_map.mpr ⟨s, hs, hsd⟩)
    refine (mem_sortRows _ r).mpr ?_
    have : old ++ sortRows new0 = (old ++ l1) ++ r :: l2 := by
      rw [hsplit, List.append_assoc]
    rw [this]
    exact ddkl_mem_of_split (old ++ l1) l2 r hl2
  · intro r hr
    have := ddkl_mem_cases old (sortRows new0) r ((mem_sortRows _ r).mp hr)
    rcases this with h1 | ⟨h1, h2⟩
    · exact Or.inl ((mem_sortRows new0 r).mp h1)
    · exact Or.inr ⟨h1, fun s hs => h2 s ((mem_sortRows new0 s).mpr hs)⟩
  · intro dte
    rw [List.Perm.mem_iff (hpermM.map Row.date), ddkl_date_mem]
    simp only [List.map_append, List.mem_append]
    rw [List.Perm.mem_iff (hpermS.map Row.date)]

/-! ## The non-rollover update (C2) -/

lemma atomic_save_ok (fs : FS) (df : Table) (p : Str) (j : Table) :
    atomic_save fs df p true true j =
      .ok (fsInsert (fsRemove (fsInsert fs (p ++ tmpSuffix) df) (p ++ tmpSuffix)) p df) :=
  rfl

lemma fsGet_save (fs : FS) (df : Table) (p q : Str) :
    fsGet (fsInsert (fsRemove (fsInsert fs (p ++ tmpSuffix) df) (p ++ tmpSuffix)) p df) q =
      if q = p then some df
      else if q = p ++ tmpSuffix then none else fsGet fs q := by
  rw [fsGet_fsInsert]
  by_cases h1 : q = p
  · rw [if_pos h1, if_pos h1]
  · rw [if_neg h1, if_neg h1, fsGet_fsRemove]
    by_cases h2 : q = p ++ tmpSuffix
    · rw [if_pos h2, if_pos h2]
    · rw [if_neg h2, if_neg h2, fsGet_fsInsert, if_neg h2]

/-- C2: in the non-rollover branch, the engine writes exactly
`merge_tables df_old (sortRows df_new0)` to the new live partition, and that
table has one row per date (as many dates as the union of both inputs, no
duplicates), newly fetched rows winning over old rows on shared dates, all
in ascending date order. -/
theorem normal_update_merge
    (st : St) (code sector_dir cur : Str) (df_old df_new0 : Table)
    (junk : Str → Table)
    (h_old : fsGet st.fs cur = some df_old)
    (h_parts : ¬ (splitOnChar '_' (basename cur)).length < 2)
    (h_fy : ¬ current_fy_of cur (fetch_new_fy df_new0) < fetch_new_fy df_new0)
    (h_nodup : (df_new0.map Row.date).Nodup) :
    ∃ st', process_fetched st code sector_dir cur df_new0
        (fun _ => true) (fun _ => true) junk = .ok st' ∧
      fsGet st'.fs (joinPath sector_dir (mkLiveName code
          (current_fy_of cur (fetch_new_fy df_new0)) (fetch_latest_date df_new0))) =
        some (merge_tables df_old (sortRows df_new0)) ∧
      ((merge_tables df_old (sortRows df_new0)).map Row.date).Nodup ∧
      List.Sorted rowLe (merge_tables df_old (sortRows df_new0)) ∧
      (∀ r ∈ df_new0, r ∈ merge_tables df_old (sortRows df_new0)) ∧
      (∀ r ∈ merge_tables df_old (sortRows df_new0),
        r ∈ df_new0 ∨ (r ∈ df_old ∧ ∀ s ∈ df_new0, s.date ≠ r.date)) ∧
      (∀ dte, dte ∈ (merge_tables df_old (sortRows df_new0)).map Row.date ↔
        dte ∈ (df_old ++ df_new0).map Row.date) := by
  obtain ⟨p1, p2, p3, p4, p5⟩ := merge_props df_old df_new0 h_nodup
  have hsave := atomic_save_ok st.fs (merge_tables df_old (sortRows df_new0))
    (joinPath sector_dir (mkLiveName code
      (current_fy_of cur (fetch_new_fy df_new0)) (fetch_latest_date df_new0)))
    (junk (joinPath sector_dir (mkLiveName code
      (current_fy_of cur (fetch_new_fy df_new0)) (fetch_latest_date df_new0))))
  have heval : process_fetched st code sector_dir cur df_new0
      (fun _ => true) (fun _ => true) junk =
      .ok ⟨(if joinPath sector_dir (mkLiveName code
              (current_fy_of cur (fetch_new_fy df_new0))
              (fetch_latest_date df_new0)) ≠ cur then
          (⟨fsRemove (fsInsert (fsRemove (fsInsert st.fs
              (joinPath sector_dir (mkLiveName code
                (current_fy_of cur (fetch_new_fy df_new0))
                (fetch_latest_date df_new0)) ++ tmpSuffix)
              (merge_tables df_old (sortRows df_new0)))
              (joinPath sector_dir (mkLiveName code
                (current_fy_of cur (fetch_new_fy df_new0))
                (fetch_latest_date df_new0)) ++ tmpSuffix))
              (joinPath sector_dir (mkLiveName code
                (current_fy_of cur (fetch_new_fy df_new0))
                (fetch_latest_date df_new0)))
              (merge_tables df_old (sortRows df_new0))) cur,
            remove_file st.repo cur⟩ : St)
        else
          ⟨fsInsert (fsRemove (fsInsert st.fs
              (joinPath sector_dir (mkLiveName code
                (current_fy_of cur (fetch_new_fy df_new0))
                (fetch_latest_date df_new0)) ++ tmpSuffix)
              (merge_tables df_old (sortRows df_new0)))
              (joinPath sector_dir (mkLiveName code
                (current_fy_of cur (fetch_new_fy df_new0))
                (fetch_latest_date df_new0)) ++ tmpSuffix))
              (joinPath sector_dir (mkLiveName code
                (current_fy_of cur (fetch_new_fy df_new0))
                (fetch_latest_date df_new0)))
              (merge_tables df_old (sortRows df_new0)), st.repo⟩).fs,
        add_file (if joinPath sector_dir (mkLiveName code
              (current_fy_of cur (fetch_new_fy df_new0))
              (fetch_latest_date df_new0)) ≠ cur then
          (⟨fsRemove (fsInsert (fsRemove (fsInsert st.fs
              (joinPath sector_dir (mkLiveName code
                (current_fy_of cur (fetch_new_fy df_new0))
                (fetch_latest_date df_new0)) ++ tmpSuffix)
              (merge_tables df_old (sortRows df_new0)))
              (joinPath sector_dir (mkLiveName code
                (current_fy_of cur (fetch_new_fy df_new0))
                (fetch_latest_date df_new0)) ++ tmpSuffix))
              (joinPath sector_dir (mkLiveName code
                (current_fy_of cur (fetch_new_fy df_new0))
                (fetch_latest_date df_new0)))
              (merge_tables df_old (sortRows df_new0))) cur,
            remove_file st.repo cur⟩ : St)
        else
          ⟨fsInsert (fsRemove (fsInsert st.fs
              (joinPath sector_dir (mkLiveName code
                (current_fy_of cur (fetch_new_fy df_new0))
                (fetch_latest_date df_new0)) ++ tmpSuffix)
              (merge_tables df_old (sortRows df_new0)))
              (joinPath sector_dir (mkLiveName code
                (current_fy_of cur (fetch_new_fy df_new0))
                (fetch_latest_date df_new0)) ++ tmpSuffix))
              (joinPath sector_dir (mkLiveName code
                (current_fy_of cur (fetch_new_fy df_new0))
                (fetch_latest_date df_new0)))
              (merge_tables df_old (sortRows df_new0)), st.repo⟩).repo
          (joinPath sector_dir (mkLiveName code
            (current_fy_of cur (fetch_new_fy df_new0))
            (fetch_latest_date df_new0)))⟩ := by
    unfold process_fetched
    split
    · rename_i heq
      rw [h_old] at heq
      exact absurd heq (by simp)
    · rename_i df_old' heq
      rw [h_old] at heq
      injection heq with heq'
      subst heq'
      rw [if_neg h_parts, if_neg h_fy]
      rfl
  refine ⟨_, heval, ?_, p1, p2, p3, p4, p5⟩
  by_cases hnp : joinPath sector_dir (mkLiveName code
      (current_fy_of cur (fetch_new_fy df_new0)) (fetch_latest_date df_new0)) ≠ cur
  · rw [if_pos hnp]
    show fsGet (fsRemove _ cur) _ = _
    rw [fsGet_fsRemove, if_neg hnp, fsGet_save, if_pos rfl]
  · rw [if_neg hnp]
    show fsGet _ _ = _
    rw [fsGet_save, if_pos rfl]

/-- Concrete live partition path used by the C2 witness. -/
def curW : Str := "/dq/3250/72030_2024fy_20250320.csv".toList

/-- Concrete pre-update state used by the C2 witness. -/
def stW : St := ⟨[(curW, [⟨20250319, 1⟩, ⟨20250320, 2⟩])], [curW]⟩

/-- Concrete fetched rows used by the C2 witness. -/
def dfW : Table := [⟨20250324, 3⟩, ⟨20250325, 4⟩]

/-- Witness for C2 on the spec's end-to-end scenario shape. -/
theorem normal_update_merge_witness :
    ∃ st', process_fetched stW "72030".toList "/dq/3250".toList curW dfW
        (fun _ => true) (fun _ => true) (fun _ => []) = .ok st' ∧
      fsGet st'.fs (joinPath "/dq/3250".toList (mkLiveName "72030".toList
          (current_fy_of curW (fetch_new_fy dfW)) (fetch_latest_date dfW))) =
        some (merge_tables [⟨20250319, 1⟩, ⟨20250320, 2⟩] (sortRows dfW)) ∧
      ((merge_tables [⟨20250319, 1⟩, ⟨20250320, 2⟩] (sortRows dfW)).map Row.date).Nodup ∧
      List.Sorted rowLe (merge_tables [⟨20250319, 1⟩, ⟨20250320, 2⟩] (sortRows dfW)) ∧
      (∀ r ∈ dfW, r ∈ merge_tables [⟨20250319, 1⟩, ⟨20250320, 2⟩] (sortRows dfW)) ∧
      (∀ r ∈ merge_tables [⟨20250319, 1⟩, ⟨20250320, 2⟩] (sortRows dfW),
        r ∈ dfW ∨ (r ∈ [⟨20250319, 1⟩, ⟨20250320, 2⟩] ∧
          ∀ s ∈ dfW, s.date ≠ r.date)) ∧
      (∀ dte, dte ∈ (merge_tables [⟨20250319, 1⟩, ⟨20250320, 2⟩] (sortRows dfW)).map Row.date ↔
        dte ∈ (([⟨20250319, 1⟩, ⟨20250320, 2⟩] : Table) ++ dfW).map Row.date) :=
  normal_update_merge stW "72030".toList "/dq/3250".toList curW
    [⟨20250319, 1⟩, ⟨20250320, 2⟩] dfW (fun _ => [])
    (by decide) (by decide) (by decide) (by decide)

/-! ## Rollover support lemmas -/

lemma digCh_isDigit (k : Nat) (h : k < 10) : (digCh k).isDigit = true := by
  interval_cases k <;> decide

lemma digCh_mod_isDigit (k : Nat) : (digCh (k % 10)).isDigit = true :=
  digCh_isDigit _ (Nat.mod_lt _ (by omega))

lemma natToStrAux_digits : ∀ fuel n : Nat, ∀ c ∈ natToStrAux fuel n,
    c.isDigit = true := by
  intro fuel
  induction fuel with
  | zero => intro n c h; simp [natToStrAux] at h
  | succ fuel ih =>
    intro n c h
    simp only [natToStrAux] at h
    by_cases hn : n < 10
    · rw [if_pos hn] at h
      rcases List.mem_singleton.mp h with rfl
      exact digCh_isDigit n hn
    · rw [if_neg hn] at h
      rcases List.mem_append.mp h with h1 | h1
      · exact ih _ c h1
      · rcases List.mem_singleton.mp h1 with rfl
        exact digCh_mod_isDigit n

lemma count_underscore_natToStr (n : Nat) : (natToStr n).count '_' = 0 :=
  List.count_eq_zero.mpr fun h => by
    have := natToStrAux_digits (n + 1) n '_' h
    simp at this

lemma mem_dateStr_digit (d : Date) : ∀ c ∈ dateStr d, c.isDigit = true := by
  intro c h
  simp only [dateStr, ymdStr, pad4, pad2, List.cons_append, List.nil_append,
    List.mem_cons, List.not_mem_nil, or_false] at h
  rcases h with rfl | rfl | rfl | rfl | rfl | rfl | rfl | rfl <;>
    exact digCh_mod_isDigit _

lemma count_underscore_dateStr (d : Date) : (dateStr d).count '_' = 0 :=
  List.count_eq_zero.mpr fun h => by
    have := mem_dateStr_digit d '_' h
    simp at this

lemma mkArchiveName_ne_mkLiveName (code : Str) (fy1 fy2 d8 : Nat) :
    mkArchiveName code fy1 ≠ mkLiveName code fy2 d8 := by
  intro h
  have hc := congrArg (List.count '_') h
  simp only [mkArchiveName, mkLiveName, csvSuffix, List.count_append,
    List.count_cons, count_underscore_natToStr, count_underscore_dateStr] at hc
  simp at hc

lemma joinPath_inj (dir n1 n2 : Str) (h : joinPath dir n1 = joinPath dir n2) :
    n1 = n2 := by
  simp only [joinPath] at h
  have := List.append_cancel_left h
  injection this

lemma append_csv_ne_append_tmp (a b : Str) : a ++ csvSuffix ≠ b ++ tmpSuffix := by
  intro h
  have h1 : (a ++ csvSuffix).getLast? = some 'v' := by
    rw [show a ++ csvSuffix = (a ++ ['.', 'c', 's']) ++ ['v'] by
      simp [csvSuffix]]
    exact List.getLast?_concat _
  have h2 : (b ++ tmpSuffix).getLast? = some 'p' := by
    rw [show b ++ tmpSuffix = (b ++ ['.', 't', 'm']) ++ ['p'] by
      simp [tmpSuffix]]
    exact List.getLast?_concat _
  rw [h, h2] at h1
  simp at h1

lemma archivePath_shape (sector code : Str) (fy : Nat) :
    joinPath sector (mkArchiveName code fy) =
      (sector ++ '/' :: (code ++ '_' :: (natToStr fy ++ ['f', 'y']))) ++ csvSuffix := by
  simp [joinPath, mkArchiveName, csvSuffix]

lemma archivePath_ne_tmp (sector code x : Str) (fy : Nat) :
    joinPath sector (mkArchiveName code fy) ≠ x ++ tmpSuffix := by
  rw [archivePath_shape]
  exact append_csv_ne_append_tmp _ _

lemma getLastD_mem (l : Table) (h : l ≠ []) (z : Row) : l.getLastD z ∈ l := by
  match l with
  | [] => exact absurd rfl h
  | a :: as =>
    rw [List.getLastD_cons]
    rcases getLastD_mem_or as a with h1 | h1
    · rw [h1]; exact List.mem_cons_self _ _
    · exact List.mem_cons_of_mem _ h1

lemma sortRows_ne_nil (t : Table) (h : t ≠ []) : sortRows t ≠ [] := by
  intro hc
  have hl := (sortRows_perm t).length_eq
  rw [hc] at hl
  exact h (List.eq_nil_of_length_eq_zero hl.symm)

/-- The maximal fetched row lies at or after April 1 of its own fiscal year,
so the new-fiscal-year slice of a rollover is never empty. -/
lemma rollover_next_nonempty (df_new0 : Table) (hne : df_new0 ≠ [])
    (hv : ∀ r ∈ df_new0, validDate (ymdToDate r.date)) :
    ((sortRows df_new0).getLastD ⟨0, 0⟩) ∈ sortRows df_new0 ∧
      fetch_new_fy df_new0 * 10000 + 401 ≤
        ((sortRows df_new0).getLastD ⟨0, 0⟩).date := by
  have hmemL : (sortRows df_new0).getLastD ⟨0, 0⟩ ∈ sortRows df_new0 :=
    getLastD_mem _ (sortRows_ne_nil _ hne) _
  refine ⟨hmemL, ?_⟩
  have hvL := hv _ ((mem_sortRows _ _).mp hmemL)
  have hfy : fetch_new_fy df_new0 =
      get_current_fy (ymdToDate ((sortRows df_new0).getLastD ⟨0, 0⟩).date) := rfl
  rw [hfy]
  obtain ⟨h1, h2, h3, h4, h5, h6⟩ := hvL
  unfold get_current_fy
  unfold ymdToDate at *
  simp only [] at h1 h3 h5 ⊢
  by_cases hm : ((sortRows df_new0).getLastD ⟨0, 0⟩).date / 100 % 100 ≥ 4
  · rw [if_pos hm]; omega
  · rw [if_neg hm]; omega

/-! ## The rollover update (C1) -/

lemma merge_tables_nil (old : Table) (hs : List.Sorted rowLe old)
    (h : (old.map Row.date).Nodup) : merge_tables old [] = old := by
  unfold merge_tables
  rw [List.append_nil, ddkl_of_nodup old h]
  exact hs.insertionSort_eq

/-- C1: when the fetched rows' latest fiscal year exceeds the current
partition's fiscal year, the engine archives the old year under the dateless
name with the old table merged with exactly the fetched rows dated before
April 1 of the new fiscal year, creates the new live partition (suffixed with
the fetched data's maximal date) holding exactly the fetched rows dated on or
after that April 1, and leaves no file at the old live partition's path. -/
theorem rollover_split
    (st : St) (code sector_dir cur : Str) (df_old df_new0 : Table)
    (junk : Str → Table)
    (h_old : fsGet st.fs cur = some df_old)
    (h_parts : ¬ (splitOnChar '_' (basename cur)).length < 2)
    (h_roll : current_fy_of cur (fetch_new_fy df_new0) < fetch_new_fy df_new0)
    (h_ne : df_new0 ≠ [])
    (h_valid : ∀ r ∈ df_new0, validDate (ymdToDate r.date))
    (h_sorted_old : List.Sorted rowLe df_old)
    (h_nodup_old : (df_old.map Row.date).Nodup)
    (h_cur_arch : cur ≠ joinPath sector_dir
      (mkArchiveName code (current_fy_of cur (fetch_new_fy df_new0))))
    (h_cur_live : cur ≠ joinPath sector_dir
      (mkLiveName code (fetch_new_fy df_new0) (fetch_latest_date df_new0))) :
    ∃ st', process_fetched st code sector_dir cur df_new0
        (fun _ => true) (fun _ => true) junk = .ok st' ∧
      fsGet st'.fs (joinPath sector_dir
          (mkArchiveName code (current_fy_of cur (fetch_new_fy df_new0)))) =
        some (merge_tables df_old ((sortRows df_new0).filter
          (fun r => r.date < fetch_new_fy df_new0 * 10000 + 401))) ∧
      fsGet st'.fs (joinPath sector_dir
          (mkLiveName code (fetch_new_fy df_new0) (fetch_latest_date df_new0))) =
        some ((sortRows df_new0).filter
          (fun r => fetch_new_fy df_new0 * 10000 + 401 ≤ r.date)) ∧
      (∀ r, r ∈ (sortRows df_new0).filter
          (fun r => fetch_new_fy df_new0 * 10000 + 401 ≤ r.date) ↔
        (r ∈ df_new0 ∧ fetch_new_fy df_new0 * 10000 + 401 ≤ r.date)) ∧
      (∀ r, r ∈ (sortRows df_new0).filter
          (fun r => r.date < fetch_new_fy df_new0 * 10000 + 401) ↔
        (r ∈ df_new0 ∧ r.date < fetch_new_fy df_new0 * 10000 + 401)) ∧
      (∀ r ∈ df_new0, r.date ≤ fetch_latest_date df_new0) ∧
      fsGet st'.fs cur = none := by
  have hnext0 := rollover_next_nonempty df_new0 h_ne h_valid
  have hnextne : (sortRows df_new0).filter
      (fun r => fetch_new_fy df_new0 * 10000 + 401 ≤ r.date) ≠ [] := by
    intro hc
    have hmem : ((sortRows df_new0).getLastD ⟨0, 0⟩) ∈ (sortRows df_new0).filter
        (fun r => fetch_new_fy df_new0 * 10000 + 401 ≤ r.date) := by
      rw [List.mem_filter]
      exact ⟨hnext0.1, by simpa using hnext0.2⟩
    rw [hc] at hmem
    cases hmem
  have heval1 : process_fetched st code sector_dir cur df_new0
      (fun _ => true) (fun _ => true) junk =
        Except.ok (⟨fsInsert (fsRemove (fsInsert
            ((if cur ≠ joinPath sector_dir (mkArchiveName code
                (current_fy_of cur (fetch_new_fy df_new0))) then
              (⟨fsRemove (fsInsert (fsRemove (fsInsert st.fs
                  (joinPath sector_dir (mkArchiveName code
                    (current_fy_of cur (fetch_new_fy df_new0))) ++ tmpSuffix)
                  (if (sortRows df_new0).filter
                      (fun r => r.date < fetch_new_fy df_new0 * 10000 + 401) = []
                    then df_old
                    else merge_tables df_old ((sortRows df_new0).filter
                      (fun r => r.date < fetch_new_fy df_new0 * 10000 + 401))))
                  (joinPath sector_dir (mkArchiveName code
                    (current_fy_of cur (fetch_new_fy df_new0))) ++ tmpSuffix))
                  (joinPath sector_dir (mkArchiveName code
                    (current_fy_of cur (fetch_new_fy df_new0))))
                  (if (sortRows df_new0).filter
                      (fun r => r.date < fetch_new_fy df_new0 * 10000 + 401) = []
                    then df_old
                    else merge_tables df_old ((sortRows df_new0).filter
                      (fun r => r.date < fetch_new_fy df_new0 * 10000 + 401)))) cur,
                remove_file st.repo cur⟩ : St)
            else
              ⟨fsInsert (fsRemove (fsInsert st.fs
                  (joinPath sector_dir (mkArchiveName code
                    (current_fy_of cur (fetch_new_fy df_new0))) ++ tmpSuffix)
                  (if (sortRows df_new0).filter
                      (fun r => r.date < fetch_new_fy df_new0 * 10000 + 401) = []
                    then df_old
                    else merge_tables df_old ((sortRows df_new0).filter
                      (fun r => r.date < fetch_new_fy df_new0 * 10000 + 401))))
                  (joinPath sector_dir (mkArchiveName code
                    (current_fy_of cur (fetch_new_fy df_new0))) ++ tmpSuffix))
                  (joinPath sector_dir (mkArchiveName code
                    (current_fy_of cur (fetch_new_fy df_new0))))
                  (if (sortRows df_new0).filter
                      (fun r => r.date < fetch_new_fy df_new0 * 10000 + 401) = []
                    then df_old
                    else merge_tables df_old ((sortRows df_new0).filter
                      (fun r => r.date < fetch_new_fy df_new0 * 10000 + 401))),
                st.repo⟩).fs)
            (joinPath sector_dir (mkLiveName code (fetch_new_fy df_new0)
              (fetch_latest_date df_new0)) ++ tmpSuffix)
            ((sortRows df_new0).filter
              (fun r => fetch_new_fy df_new0 * 10000 + 401 ≤ r.date)))
            (joinPath sector_dir (mkLiveName code (fetch_new_fy df_new0)
              (fetch_latest_date df_new0)) ++ tmpSuffix))
            (joinPath sector_dir (mkLiveName code (fetch_new_fy df_new0)
              (fetch_latest_date df_new0)))
            ((sortRows df_new0).filter
              (fun r => fetch_new_fy df_new0 * 10000 + 401 ≤ r.date)),
          add_file (add_file
            ((if cur ≠ joinPath sector_dir (mkArchiveName code
                (current_fy_of cur (fetch_new_fy df_new0))) then
              (⟨fsRemove (fsInsert (fsRemove (fsInsert st.fs
                  (joinPath sector_dir (mkArchiveName code
                    (current_fy_of cur (fetch_new_fy df_new0))) ++ tmpSuffix)
                  (if (sortRows df_new0).filter
                      (fun r => r.date < fetch_new_fy df_new0 * 10000 + 401) = []
                    then df_old
                    else merge_tables df_old ((sortRows df_new0).filter
                      (fun r => r.date < fetch_new_fy df_new0 * 10000 + 401))))
                  (joinPath sector_dir (mkArchiveName code
                    (current_fy_of cur (fetch_new_fy df_new0))) ++ tmpSuffix))
                  (joinPath sector_dir (mkArchiveName code
                    (current_fy_of cur (fetch_new_fy df_new0))))
                  (if (sortRows df_new0).filter
                      (fun r => r.date < fetch_new_fy df_new0 * 10000 + 401) = []
                    then df_old
                    else merge_tables df_old ((sortRows df_new0).filter
                      (fun r => r.date < fetch_new_fy df_new0 * 10000 + 401)))) cur,
                remove_file st.repo cur⟩ : St)
            else
              ⟨fsInsert (fsRemove (fsInsert st.fs
                  (joinPath sector_dir (mkArchiveName code
                    (current_fy_of cur (fetch_new_fy df_new0))) ++ tmpSuffix)
                  (if (sortRows df_new0).filter
                      (fun r => r.date < fetch_new_fy df_new0 * 10000 + 401) = []
                    then df_old
                    else merge_tables df_old ((sortRows df_new0).filter
                      (fun r => r.date < fetch_new_fy df_new0 * 10000 + 401))))
                  (joinPath sector_dir (mkArchiveName code
                    (current_fy_of cur (fetch_new_fy df_new0))) ++ tmpSuffix))
                  (joinPath sector_dir (mkArchiveName code
                    (current_fy_of cur (fetch_new_fy df_new0))))
                  (if (sortRows df_new0).filter
                      (fun r => r.date < fetch_new_fy df_new0 * 10000 + 401) = []
                    then df_old
                    else merge_tables df_old ((sortRows df_new0).filter
                      (fun r => r.date < fetch_new_fy df_new0 * 10000 + 401))),
                st.repo⟩).repo)
            (joinPath sector_dir (mkArchiveName code
              (current_fy_of cur (fetch_new_fy df_new0)))))
            (joinPath sector_dir (mkLiveName code (fetch_new_fy df_new0)
              (fetch_latest_date df_new0)))⟩ : St) := by
    unfold process_fetched
    split
    · rename_i heq
      rw [h_old] at heq
      exact absurd heq (by simp)
    · rename_i df_old' heq
      rw [h_old] at heq
      injection heq with heq'
      subst heq'
      rw [if_neg h_parts, if_pos h_roll]
      simp only [atomic_save_ok]
      rw [if_pos hnextne]
  have hAPLP : joinPath sector_dir (mkArchiveName code
      (current_fy_of cur (fetch_new_fy df_new0))) ≠
      joinPath sector_dir (mkLiveName code (fetch_new_fy df_new0)
        (fetch_latest_date df_new0)) :=
    fun h => mkArchiveName_ne_mkLiveName code _ _ _ (joinPath_inj _ _ _ h)
  have hAPtmp : ∀ x : Str, joinPath sector_dir (mkArchiveName code
      (current_fy_of cur (fetch_new_fy df_new0))) ≠ x ++ tmpSuffix :=
    fun x => archivePath_ne_tmp sector_dir code x _
  rw [if_pos h_cur_arch] at heval1
  refine ⟨_, heval1, ?_, ?_, ?_, ?_, ?_, ?_⟩
  · dsimp only []
    rw [fsGet_save, if_neg hAPLP, if_neg (hAPtmp _), fsGet_fsRemove,
      if_neg (fun h => h_cur_arch h.symm), fsGet_save, if_pos rfl]
    by_cases hDFC : (sortRows df_new0).filter
        (fun r => r.date < fetch_new_fy df_new0 * 10000 + 401) = []
    · rw [if_pos hDFC, hDFC, merge_tables_nil df_old h_sorted_old h_nodup_old]
    · rw [if_neg hDFC]
  · dsimp only []
    rw [fsGet_save, if_pos rfl]
  · intro r
    rw [List.mem_filter, mem_sortRows]
    simp
  · intro r
    rw [List.mem_filter, mem_sortRows]
    simp
  · intro r hr
    exact sorted_le_getLastD (sortRows df_new0)
      (List.sorted_insertionSort rowLe df_new0) r ((mem_sortRows _ _).mpr hr) ⟨0, 0⟩
  · dsimp only []
    rw [fsGet_save, if_neg h_cur_live]
    by_cases hct : cur = joinPath sector_dir (mkLiveName code (fetch_new_fy df_new0)
        (fetch_latest_date df_new0)) ++ tmpSuffix
    · rw [if_pos hct]
    · rw [if_neg hct, fsGet_fsRemove, if_pos rfl]

/-- Old live partition path of the C1 witness scenario. -/
def curR : Str := "/dq/1234/72030_2024fy_20250328.csv".toList

/-- Pre-rollover state of the C1 witness scenario. -/
def stR : St := ⟨[(curR, [⟨20250327, 1⟩, ⟨20250328, 2⟩])], [curR]⟩

/-- Fetched rows of the C1 witness scenario, crossing April 1. -/
def dfR : Table := [⟨20250331, 3⟩, ⟨20250401, 4⟩, ⟨20250403, 5⟩]

/-- Witness for C1 on the spec's rollover scenario. -/
theorem rollover_split_witness :
    ∃ st', process_fetched stR "72030".toList "/dq/1234".toList curR dfR
        (fun _ => true) (fun _ => true) (fun _ => []) = .ok st' ∧
      fsGet st'.fs (joinPath "/dq/1234".toList
          (mkArchiveName "72030".toList (current_fy_of curR (fetch_new_fy dfR)))) =
        some (merge_tables [⟨20250327, 1⟩, ⟨20250328, 2⟩] ((sortRows dfR).filter
          (fun r => r.date < fetch_new_fy dfR * 10000 + 401))) ∧
      fsGet st'.fs (joinPath "/dq/1234".toList
          (mkLiveName "72030".toList (fetch_new_fy dfR) (fetch_latest_date dfR))) =
        some ((sortRows dfR).filter
          (fun r => fetch_new_fy dfR * 10000 + 401 ≤ r.date)) ∧
      (∀ r, r ∈ (sortRows dfR).filter
          (fun r => fetch_new_fy dfR * 10000 + 401 ≤ r.date) ↔
        (r ∈ dfR ∧ fetch_new_fy dfR * 10000 + 401 ≤ r.date)) ∧
      (∀ r, r ∈ (sortRows dfR).filter
          (fun r => r.date < fetch_new_fy dfR * 10000 + 401) ↔
        (r ∈ dfR ∧ r.date < fetch_new_fy dfR * 10000 + 401)) ∧
      (∀ r ∈ dfR, r.date ≤ fetch_latest_date dfR) ∧
      fsGet st'.fs curR = none :=
  rollover_split stR "72030".toList "/dq/1234".toList curR
    [⟨20250327, 1⟩, ⟨20250328, 2⟩] dfR (fun _ => [])
    (by decide) (by decide) (by decide) (by decide) (by decide) (by decide)
    (by decide) (by decide) (by decide)

/-- C6: when the derived last-updated string of the latest partition is at or
past the target end date (string order), the update returns `ALREADY_LATEST`
with the filesystem and repository untouched, independently of the fetch
collaborator and the writer's fate — no fetch and no write happen.  Because
the state is returned unchanged, a second run in the same situation again
returns `ALREADY_LATEST` and leaves every partition byte-identical (second
conjunct). -/
theorem already_latest_idempotent
    (st : St) (code sector_dir biz p s : Str)
    (h1 : get_latest_file st.repo = some p)
    (h2 : compute_last_updated st.fs p = some s)
    (h3 : strGe s biz = true) :
    (∀ test fetch wOk rOk junk,
      update_file_for_code true st code sector_dir biz test fetch wOk rOk junk =
        .ok .ALREADY_LATEST st) ∧
    (∀ test fetch wOk rOk junk test' fetch' wOk' rOk' junk' st1,
      update_file_for_code true st code sector_dir biz test fetch wOk rOk junk =
        .ok .ALREADY_LATEST st1 →
      update_file_for_code true st1 code sector_dir biz test' fetch' wOk' rOk'
        junk' = .ok .ALREADY_LATEST st1) := by
  have hrun : ∀ test fetch wOk rOk junk,
      update_file_for_code true st code sector_dir biz test fetch wOk rOk junk =
        .ok .ALREADY_LATEST st := by
    intro test fetch wOk rOk junk
    unfold update_file_for_code
    rw [if_neg (by decide)]
    split
    · rename_i heq
      rw [h1] at heq
      exact absurd heq (by simp)
    · rename_i p' heq
      rw [h1] at heq
      injection heq with heq'
      subst heq'
      split
      · rename_i heq2
        rw [h2] at heq2
        exact absurd heq2 (by simp)
      · rename_i s' heq2
        rw [h2] at heq2
        injection heq2 with heq2'
        subst heq2'
        rw [if_pos h3]
  refine ⟨hrun, ?_⟩
  intro test fetch wOk rOk junk test' fetch' wOk' rOk' junk' st1 hfirst
  rw [hrun test fetch wOk rOk junk] at hfirst
  injection hfirst with h1' h2'
  subst h2'
  exact hrun test' fetch' wOk' rOk' junk'

/-- C7 (amended): in dry-run mode, when the latest partition's filename
carries a date suffix (at least three `_`-parts) that is behind the target
date, the update returns `UPDATED` and performs no fetch, no write and no
read — the result is the same for every filesystem content and every fetch
outcome, and the state is returned unchanged.  (When only an archived,
dateless file exists the engine does read it first — see
`dry_run_reads_archived_partition`.) -/
theorem dry_run_no_io_dated (repo : List Str) (code sector_dir biz p : Str)
    (dt : Date)
    (h1 : get_latest_file repo = some p)
    (h2 : 3 ≤ (splitOnChar '_' (basename p)).length)
    (h3 : strGe (sort_key_part p) biz = false)
    (h4 : strptimeYmd (sort_key_part p) = some dt)
    (h5 : strGt (dateStr (nextDay dt)) biz = false) :
    ∀ fs fetch wOk rOk junk,
      update_file_for_code true ⟨fs, repo⟩ code sector_dir biz true fetch wOk
        rOk junk = .ok .UPDATED ⟨fs, repo⟩ := by
  intro fs fetch wOk rOk junk
  have hcompute : compute_last_updated fs p = some (sort_key_part p) := by
    unfold compute_last_updated
    rw [if_pos h2]
  unfold update_file_for_code
  rw [if_neg (by decide)]
  split
  · rename_i heq
    rw [show (⟨fs, repo⟩ : St).repo = repo from rfl, h1] at heq
    exact absurd heq (by simp)
  · rename_i p' heq
    rw [show (⟨fs, repo⟩ : St).repo = repo from rfl, h1] at heq
    injection heq with heq'
    subst heq'
    split
    · rename_i heq2
      rw [show (⟨fs, repo⟩ : St).fs = fs from rfl, hcompute] at heq2
      exact absurd heq2 (by simp)
    · rename_i s' heq2
      rw [show (⟨fs, repo⟩ : St).fs = fs from rfl, hcompute] at heq2
      injection heq2 with heq2'
      subst heq2'
      rw [if_neg (by rw [h3]; exact fun h => Bool.false_ne_true h)]
      split
      · rename_i heq3
        rw [h4] at heq3
        exact absurd heq3 (by simp)
      · rename_i dt' heq3
        rw [h4] at heq3
        injection heq3 with heq3'
        subst heq3'
        rw [if_neg (by rw [h5]; exact fun h => Bool.false_ne_true h)]
        rfl

lemma digCh_toNat (k : Nat) (h : k < 10) : (digCh k).toNat = 48 + k := by
  interval_cases k <;> decide

lemma digCh_toNat_mod (k : Nat) : (digCh (k % 10)).toNat = 48 + k % 10 :=
  digCh_toNat _ (Nat.mod_lt _ (by omega))

lemma digitsToNat_pad4 (n : Nat) (h : n ≤ 9999) : digitsToNat (pad4 n) = n := by
  simp [digitsToNat, pad4, digCh_toNat_mod]
  omega

lemma digitsToNat_pad2 (n : Nat) (h : n ≤ 99) : digitsToNat (pad2 n) = n := by
  simp [digitsToNat, pad2, digCh_toNat_mod]
  omega

lemma dateStr_length (d : Date) : (dateStr d).length = 8 := by
  simp [dateStr, ymdStr, pad4, pad2]

lemma dateStr_all_digits (d : Date) : (dateStr d).all Char.isDigit = true := by
  simp [dateStr, ymdStr, pad4, pad2, digCh_mod_isDigit]

lemma strptime_dateStr (d : Date) (hv : validDate d) :
    strptimeYmd (dateStr d) = some d := by
  obtain ⟨h1, h2, h3, h4, h5, h6⟩ := hv
  unfold strptimeYmd
  rw [if_pos ⟨dateStr_length d, dateStr_all_digits d⟩]
  have htake : (dateStr d).take 4 = pad4 d.year := by
    simp [dateStr, ymdStr, pad4, pad2]
  have hdrop : ((dateStr d).drop 4).take 2 = pad2 d.month := by
    simp [dateStr, ymdStr, pad4, pad2]
  have hdrop6 : (dateStr d).drop 6 = pad2 d.day := by
    simp [dateStr, ymdStr, pad4, pad2]
  rw [htake, hdrop, hdrop6, digitsToNat_pad4 _ h2,
    digitsToNat_pad2 _ (by omega), digitsToNat_pad2 _ (by
      have := daysInMonth_le_31 d.year d.month
      omega)]
  rw [if_pos (show validDate ⟨d.year, d.month, d.day⟩ from ⟨h1, h2, h3, h4, h5, h6⟩)]

lemma char_toNat_inj (a b : Char) (h : a.toNat = b.toNat) : a = b := by
  apply Char.eq_of_val_eq
  exact UInt32.toNat.inj h

/-- Python string comparison is lexicographic block-wise: on equal-length
prefixes it compares the prefixes first, the tails deciding only on equal
prefixes. -/
lemma strLt_append (p : Str) : ∀ q s t : Str, p.length = q.length →
    strLt (p ++ s) (q ++ t) =
      (if p = q then strLt s t else strLt p q) := by
  induction p with
  | nil =>
    intro q s t hlen
    have : q = [] := List.eq_nil_of_length_eq_zero hlen.symm
    subst this
    simp
  | cons a as ih =>
    intro q s t hlen
    match q with
    | [] => exact absurd hlen (by simp)
    | b :: bs =>
      have hlen' : as.length = bs.length := by
        simpa using hlen
      show (if a.toNat < b.toNat then true
        else if b.toNat < a.toNat then false
        else strLt (as ++ s) (bs ++ t)) = _
      by_cases hab : a.toNat < b.toNat
      · rw [if_pos hab, if_neg (show ¬ (a :: as) = (b :: bs) from by
          intro hc
          injection hc with h1 h2
          subst h1
          omega)]
        show _ = (if a.toNat < b.toNat then true else _)
        rw [if_pos hab]
      · rw [if_neg hab]
        by_cases hba : b.toNat < a.toNat
        · rw [if_pos hba, if_neg (show ¬ (a :: as) = (b :: bs) from by
            intro hc
            injection hc with h1 h2
            subst h1
            omega)]
          show _ = (if a.toNat < b.toNat then true
            else if b.toNat < a.toNat then false else strLt as bs)
          rw [if_neg hab, if_pos hba]
        · have hch : a = b := char_toNat_inj a b (by omega)
          subst hch
          rw [if_neg hba, ih bs s t hlen']
          by_cases heq : as = bs
          · rw [if_pos heq, if_pos (by rw [heq])]
          · rw [if_neg heq, if_neg (show ¬ (a :: as) = (a :: bs) from by
              intro hc
              injection hc with h1 h2
              exact heq h2)]
            show _ = (if a.toNat < a.toNat then true
              else if a.toNat < a.toNat then false else strLt as bs)
            rw [if_neg (by omega), if_neg (by omega)]

lemma strLt_pad2 (m n : Nat) : strLt (pad2 m) (pad2 n) = decide (m % 100 < n % 100) := by
  simp only [pad2, strLt, digCh_toNat_mod]
  split_ifs <;>
    first
      | exact (decide_eq_true (by omega)).symm
      | exact (decide_eq_false (by omega)).symm

lemma strLt_pad4 (m n : Nat) : strLt (pad4 m) (pad4 n) = decide (m % 10000 < n % 10000) := by
  simp only [pad4, strLt, digCh_toNat_mod]
  split_ifs <;>
    first
      | exact (decide_eq_true (by omega)).symm
      | exact (decide_eq_false (by omega)).symm

lemma pad2_inj (m n : Nat) (hm : m ≤ 99) (hn : n ≤ 99) (h : pad2 m = pad2 n) :
    m = n := by
  have := congrArg digitsToNat h
  rwa [digitsToNat_pad2 m hm, digitsToNat_pad2 n hn] at this

lemma pad4_inj (m n : Nat) (hm : m ≤ 9999) (hn : n ≤ 9999) (h : pad4 m = pad4 n) :
    m = n := by
  have := congrArg digitsToNat h
  rwa [digitsToNat_pad4 m hm, digitsToNat_pad4 n hn] at this

lemma strLt_dateStr (a b : Date) (ha : validDate a) (hb : validDate b) :
    strLt (dateStr a) (dateStr b) = decide (ymdNum a < ymdNum b) := by
  obtain ⟨a1, a2, a3, a4, a5, a6⟩ := ha
  obtain ⟨b1, b2, b3, b4, b5, b6⟩ := hb
  have ha31 : a.day ≤ 31 := a6.trans (daysInMonth_le_31 _ _)
  have hb31 : b.day ≤ 31 := b6.trans (daysInMonth_le_31 _ _)
  have hshape : ∀ d : Date, dateStr d = pad4 d.year ++ (pad2 d.month ++ pad2 d.day) := by
    intro d
    simp [dateStr, ymdStr]
  rw [hshape, hshape, strLt_append _ _ _ _ (by simp [pad4]),
    strLt_append _ _ _ _ (by simp [pad2])]
  by_cases hy : pad4 a.year = pad4 b.year
  · have hyy : a.year = b.year := pad4_inj _ _ a2 b2 hy
    rw [if_pos hy]
    by_cases hm : pad2 a.month = pad2 b.month
    · have hmm : a.month = b.month := pad2_inj _ _ (by omega) (by omega) hm
      rw [if_pos hm, strLt_pad2]
      unfold ymdNum
      congr 1
      simp only [eq_iff_iff, decide_eq_decide]
      omega
    · rw [if_neg hm, strLt_pad2]
      have hmm : a.month ≠ b.month := fun hc => hm (by rw [hc])
      unfold ymdNum
      simp only [decide_eq_decide]
      omega
  · rw [if_neg hy, strLt_pad4]
    have hyy : a.year ≠ b.year := fun hc => hy (by rw [hc])
    unfold ymdNum
    simp only [decide_eq_decide]
    omega

lemma daysInMonth_pos (y m : Nat) : 28 ≤ daysInMonth y m := by
  unfold daysInMonth
  split
  · split <;> omega
  · split <;> omega

lemma nextDay_spec (a b : Date) (ha : validDate a) (hb : validDate b)
    (h : ymdNum a < ymdNum b) :
    validDate (nextDay a) ∧ ymdNum (nextDay a) ≤ ymdNum b := by
  obtain ⟨a1, a2, a3, a4, a5, a6⟩ := ha
  obtain ⟨b1, b2, b3, b4, b5, b6⟩ := hb
  have ha31 := daysInMonth_le_31 a.year a.month
  have hb31 := daysInMonth_le_31 b.year b.month
  unfold nextDay
  by_cases h1 : a.day < daysInMonth a.year a.month
  · rw [if_pos h1]
    refine ⟨⟨a1, a2, a3, a4, by dsimp only []; omega, by dsimp only []; omega⟩, ?_⟩
    simp only [ymdNum] at h ⊢
    omega
  · rw [if_neg h1]
    by_cases h2 : a.month < 12
    · rw [if_pos h2]
      have hnext28 := daysInMonth_pos a.year (a.month + 1)
      refine ⟨⟨a1, a2, by dsimp only []; omega, by dsimp only []; omega,
        by dsimp only []; omega, by dsimp only []; omega⟩, ?_⟩
      simp only [ymdNum] at h ⊢
      by_cases hby : b.year = a.year ∧ b.month = a.month
      · have hdm : daysInMonth b.year b.month = daysInMonth a.year a.month := by
          rw [hby.1, hby.2]
        omega
      · omega
    · rw [if_neg h2]
      have hm12 : a.month = 12 := by omega
      have hdim : daysInMonth a.year a.month = 31 := by
        rw [hm12]
        rfl
      have hd1 := daysInMonth_pos (a.year + 1) 1
      have hby : a.year + 1 ≤ b.year := by
        simp only [ymdNum] at h
        omega
      refine ⟨⟨by dsimp only []; omega, by dsimp only []; omega,
        by dsimp only []; omega, by dsimp only []; omega,
        by dsimp only []; omega, by dsimp only []; omega⟩, ?_⟩
      simp only [ymdNum] at h ⊢
      omega

/-- C10: if the stored last-updated date and the target end date are both
real calendar dates and the former is strictly older, then the computed fetch
window start `last + 1 day` is not past the end date as the engine's string
comparison sees it, so `update_file_for_code` can never return
`DATE_CALC_ERROR` for such an instrument. -/
theorem date_calc_error_unreachable (dLast dEnd : Date)
    (hA : validDate dLast) (hB : validDate dEnd)
    (hlt : ymdNum dLast < ymdNum dEnd) :
    strGt (dateStr (nextDay dLast)) (dateStr dEnd) = false ∧
    ∀ (dirE : Bool) (st : St) (code sector_dir : Str) (test : Bool)
      (fetch : Except Unit Table) (wOk rOk : Str → Bool) (junk : Str → Table)
      (p : Str),
      get_latest_file st.repo = some p →
      compute_last_updated st.fs p = some (dateStr dLast) →
      ∀ st', update_file_for_code dirE st code sector_dir (dateStr dEnd) test
        fetch wOk rOk junk ≠ .ok .DATE_CALC_ERROR st' := by
  obtain ⟨hvn, hle⟩ := nextDay_spec dLast dEnd hA hB hlt
  have hkey : strGt (dateStr (nextDay dLast)) (dateStr dEnd) = false := by
    unfold strGt
    rw [strLt_dateStr dEnd (nextDay dLast) hB hvn]
    exact decide_eq_false (by omega)
  refine ⟨hkey, ?_⟩
  intro dirE st code sector_dir test fetch wOk rOk junk p hp hc st' hcon
  unfold update_file_for_code at hcon
  cases dirE with
  | false =>
    rw [if_pos (by decide)] at hcon
    exact absurd hcon (by simp)
  | true =>
    rw [if_neg (by decide)] at hcon
    split at hcon
    · exact absurd hcon (by simp)
    · rename_i p' heq
      rw [hp] at heq
      injection heq with heq'
      subst heq'
      split at hcon
      · exact absurd hcon (by simp)
      · rename_i s' heq2
        rw [hc] at heq2
        injection heq2 with heq2'
        subst heq2'
        by_cases h3 : strGe (dateStr dLast) (dateStr dEnd) = true
        · rw [if_pos h3] at hcon
          exact absurd hcon (by simp)
        · rw [if_neg h3] at hcon
          split at hcon
          · exact absurd hcon (by simp)
          · rename_i dt' heq3
            rw [strptime_dateStr dLast hA] at heq3
            injection heq3 with heq3'
            subst heq3'
            rw [if_neg (by rw [hkey]; exact fun hh => Bool.false_ne_true hh)] at hcon
            by_cases ht : test = true
            · rw [if_pos ht] at hcon
              exact absurd hcon (by simp)
            · rw [if_neg ht] at hcon
              split at hcon
              · exact absurd hcon (by simp)
              · rename_i df_new
                by_cases hdf : df_new = []
                · rw [if_pos hdf] at hcon
                  exact absurd hcon (by simp)
                · rw [if_neg hdf] at hcon
                  split at hcon
                  · exact absurd hcon (by simp)
                  · exact absurd hcon (by simp)

/-- Witness for C10 at the spec's rollover dates. -/
theorem date_calc_error_unreachable_witness :
    strGt (dateStr (nextDay ⟨2025, 3, 28⟩)) (dateStr ⟨2025, 4, 3⟩) = false :=
  (date_calc_error_unreachable ⟨2025, 3, 28⟩ ⟨2025, 4, 3⟩ (by decide) (by decide)
    (by decide)).1

/-- Archived-only partition path used by the C7 counterexample. -/
def curA : Str := "/dq/1234/72030_2024fy.csv".toList

/-- Counterexample to C7: in dry-run mode, with only an archived (dateless)
partition on disk, the engine reads that file to recover the last date —
the outcome depends on the file's contents (rows through 2025-03-20 give
`UPDATED`, rows through 2025-04-01 give `ALREADY_LATEST`), so the call does
perform a file read. -/
theorem dry_run_reads_archived_partition :
    update_file_for_code true ⟨[(curA, [⟨20250320, 1⟩])], [curA]⟩
        "72030".toList "/dq/1234".toList "20250325".toList true
        (Except.error ()) (fun _ => true) (fun _ => true) (fun _ => []) =
      .ok .UPDATED ⟨[(curA, [⟨20250320, 1⟩])], [curA]⟩ ∧
    update_file_for_code true ⟨[(curA, [⟨20250401, 1⟩])], [curA]⟩
        "72030".toList "/dq/1234".toList "20250325".toList true
        (Except.error ()) (fun _ => true) (fun _ => true) (fun _ => []) =
      .ok .ALREADY_LATEST ⟨[(curA, [⟨20250401, 1⟩])], [curA]⟩ :=
  ⟨by decide, by decide⟩

/-- Malformed-suffix partition path used by the C4 counterexample. -/
def curX : Str := "/dq/1234/72030_2024fy_1234.csv".toList

/-- Counterexample to C4: a partition file whose date suffix `1234` is
lexicographically below the target date but not a parsable `YYYYMMDD` date
reaches the `datetime.strptime` call at line 278, which sits outside every
`try` block — the `ValueError` escapes `update_file_for_code` uncaught. -/
theorem update_exception_escapes :
    update_file_for_code true ⟨[], [curX]⟩ "72030".toList "/dq/1234".toList
        "20250325".toList false (.ok [⟨20250324, 1⟩]) (fun _ => true)
        (fun _ => true) (fun _ => []) = .exn ⟨[], [curX]⟩ := by
  decide

/-- C4 (amended): whenever the current partition's derived last-updated
string either is at or past the target date or parses as a valid date, the
per-instrument update returns an outcome code — every exception inside the
guarded fetch/merge/write region is caught (becoming `ERROR`); only the
un-guarded date parse of a malformed filename suffix can escape. -/
theorem update_catches_exceptions
    (dirE : Bool) (st : St) (code sector_dir biz : Str) (test : Bool)
    (fetch : Except Unit Table) (wOk rOk : Str → Bool) (junk : Str → Table)
    (h : ∀ p s, get_latest_file st.repo = some p →
      compute_last_updated st.fs p = some s →
      strGe s biz = false → (strptimeYmd s).isSome = true) :
    ∃ oc st', update_file_for_code dirE st code sector_dir biz test fetch wOk
      rOk junk = .ok oc st' := by
  unfold update_file_for_code
  cases dirE with
  | false => exact ⟨_, _, rfl⟩
  | true =>
    rw [if_neg (by decide)]
    split
    · exact ⟨_, _, rfl⟩
    · rename_i p heq
      split
      · exact ⟨_, _, rfl⟩
      · rename_i s heq2
        by_cases h3 : strGe s biz = true
        · rw [if_pos h3]
          exact ⟨_, _, rfl⟩
        · rw [if_neg h3]
          have h3' : strGe s biz = false := by
            cases hh : strGe s biz
            · rfl
            · exact absurd hh h3
          have hsome := h p s heq heq2 h3'
          split
          · rename_i heq3
            rw [heq3] at hsome
            simp at hsome
          · rename_i dt heq3
            by_cases h5 : strGt (dateStr (nextDay dt)) biz = true
            · rw [if_pos h5]
              exact ⟨_, _, rfl⟩
            · rw [if_neg h5]
              cases test with
              | true => exact ⟨_, _, rfl⟩
              | false =>
                match fetch with
                | .error e => exact ⟨_, _, rfl⟩
                | .ok df_new =>
                  show ∃ oc st', (if df_new = [] then UpdRes.ok Outcome.NO_NEW_DATA st
                    else match process_fetched st code sector_dir p df_new wOk rOk junk with
                      | Except.ok st1 => UpdRes.ok Outcome.UPDATED st1
                      | Except.error st1 => UpdRes.ok Outcome.ERROR st1) =
                    UpdRes.ok oc st'
                  by_cases hdf : df_new = []
                  · rw [if_pos hdf]
                    exact ⟨_, _, rfl⟩
                  · rw [if_neg hdf]
                    match hproc : process_fetched st code sector_dir p df_new wOk rOk junk with
                    | .ok st1 => exact ⟨_, _, rfl⟩
                    | .error st1 => exact ⟨_, _, rfl⟩

/-- Witness for C6 on a concrete up-to-date instrument. -/
theorem already_latest_idempotent_witness :
    update_file_for_code true stW "72030".toList "/dq/3250".toList
        "20250320".toList false (Except.error ()) (fun _ => true) (fun _ => true)
        (fun _ => []) = .ok .ALREADY_LATEST stW :=
  (already_latest_idempotent stW "72030".toList "/dq/3250".toList
    "20250320".toList curW ("20250320".toList) (by decide) (by decide)
    (by decide)).1 false (Except.error ()) (fun _ => true) (fun _ => true)
    (fun _ => [])

/-- Witness for C7 (amended) on a concrete dated partition, with an empty
filesystem: the dry run still reports `UPDATED`. -/
theorem dry_run_no_io_dated_witness :
    update_file_for_code true ⟨[], [curW]⟩ "72030".toList "/dq/3250".toList
        "20250325".toList true (Except.error ()) (fun _ => true) (fun _ => true)
        (fun _ => []) = .ok .UPDATED ⟨[], [curW]⟩ :=
  dry_run_no_io_dated [curW] "72030".toList "/dq/3250".toList "20250325".toList
    curW ⟨2025, 3, 20⟩ (by decide) (by decide) (by decide) (by decide)
    (by decide) [] (Except.error ()) (fun _ => true) (fun _ => true)
    (fun _ => [])

/-- Witness for C4 (amended) on a concrete well-formed instrument. -/
theorem update_catches_exceptions_witness :
    ∃ oc st', update_file_for_code true ⟨[], [curW]⟩ "72030".toList
      "/dq/3250".toList "20250325".toList false (.ok [⟨20250324, 9⟩])
      (fun _ => true) (fun _ => true) (fun _ => []) = .ok oc st' :=
  update_catches_exceptions true ⟨[], [curW]⟩ "72030".toList "/dq/3250".toList
    "20250325".toList false (.ok [⟨20250324, 9⟩]) (fun _ => true)
    (fun _ => true) (fun _ => []) (by
      intro p s h1 h2 h3
      have h1' : (some curW : Option Str) = some p :=
        (show get_latest_file (St.repo ⟨[], [curW]⟩) = some curW by
          decide).symm.trans h1
      injection h1' with hp
      subst hp
      have h2' : (some ("20250320".toList) : Option Str) = some s :=
        (show compute_last_updated (St.fs ⟨[], [curW]⟩) curW =
          some ("20250320".toList) by decide).symm.trans h2
      injection h2' with hs
      subst hs
      decide)

end JQ

